import Mathlib

/-!
Verification of the NxtFireGuard traffic sensor core.

Shallow embedding, in Lean 4, of the evaluation and dispatch engine of the
`nxtfireguard-traffic-sensor` repository: the decision engine
(`internal/recommender/engine.go`), the reputation store facade
(`internal/sqlite`), the deduplication cache key and evaluation flow
(`internal/arbiter/recommend.go`, `internal/arbiter/sync.go`), the alert
submission path (`utils/apiClient.go`, `internal/arbiter/alert.go`), the
retry queue (`internal/arbiter/queue.go`), the score-update push handler
(`internal/arbiter/updater.go`), and the subsystem reload logic
(`internal/arbiter/sync.go`).

Go machine integers are modelled as `Int`/`Nat` (no arithmetic here comes
near the `int32` bounds); Go `time.Time` values are modelled as rational
numbers of hours; the `float64` decay computation is idealised over the
real numbers; fallible Go functions returning `(T, error)` are modelled
with `Option`/`Except`, and a Go `nil` pointer of type `*int32` is the
`none` of an `Option Int`.
-/

namespace TrafficSensor

/-- Struct `Decision` from `internal/types/types.go`. -/
structure Decision where
  block : Bool
  reason : String
  blocklist : String
deriving DecidableEq, Repr

/-- Struct `Blocklist` from `internal/types/types.go`. -/
structure Blocklist where
  id : Int
  name : String
  shouldIncludePrivateIPs : Bool
  shouldIncludePublicIPs : Bool
  nfgScoreThresholdPrivateIPs : Int
  nfgScoreThresholdPublicIPs : Int
deriving DecidableEq, Repr

/-- Struct `Source` from `internal/types/types.go`. -/
structure Source where
  sourceType : String
  sourceName : String
deriving DecidableEq, Repr

/-! ## Decision engine (`internal/recommender/engine.go`)

`ShouldBlock` first calls `sqlite.Lookup(ip)`, which in Go returns a
`(*int32, error)` pair; we model the pair as `Option Int × Option String`
(`none` pointer = Go `nil`, `some e` = non-nil `error`).  The body of the
blocklist loop is a pure function of the private/public classification,
the score and the blocklist snapshot, which we embed directly. -/

/-- One iteration of the blocklist loop in `ShouldBlock`
(`engine.go`): skip when the IP class is excluded, select the
threshold by class, and emit a blocking decision when
`score >= threshold`. -/
def blocklistStep (isPrivate : Bool) (score : Int) (bl : Blocklist) : Option Decision :=
  if isPrivate && !bl.shouldIncludePrivateIPs then
    none
  else if !isPrivate && !bl.shouldIncludePublicIPs then
    none
  else
    let threshold := if isPrivate then bl.nfgScoreThresholdPrivateIPs
                     else bl.nfgScoreThresholdPublicIPs
    if score ≥ threshold then
      some ⟨true, s!"Score {score} >= threshold {threshold}", bl.name⟩
    else
      none

/-- The decision list built by `ShouldBlock` (`engine.go`) once the score
and the private/public classification are known: the blocklist loop,
followed by the fallback `{block:false, ..., blocklist:"None"}` decision
when the loop produced nothing. -/
def shouldBlockDecisions (isPrivate : Bool) (score : Int) (bls : List Blocklist) :
    List Decision :=
  let decisions := bls.filterMap (blocklistStep isPrivate score)
  if decisions = [] then
    [⟨false, s!"Score {score} did not meet any blocklist threshold", "None"⟩]
  else
    decisions

/-- Go dereference of a `*int32`: dereferencing a `nil` pointer panics,
modelled as `none` (absence of a result). -/
def goDeref (p : Option Int) : Option Int := p

/-- Function `ShouldBlock` (`engine.go`), as a function of the outcome of
`sqlite.Lookup(ip)` (a Go `(*int32, error)` pair), the outcome of
`privateIpCheck(ip)`, and the blocklist snapshot.  The overall result is
`none` when the Go code panics.  In the `err != nil` branch the Go code
builds the `"N/A"` error decision and then evaluates `*score` in its
`return` statement, so the result exists only if the score pointer is
non-nil. -/
def shouldBlock (lookupRes : Option Int × Option String)
    (privRes : Except String Bool) (bls : List Blocklist) :
    Option (List Decision × Int) :=
  match lookupRes with
  | (scorePtr, some e) =>
      let decisions : List Decision :=
        [⟨false, s!"Error retrieving score: {e}", "N/A"⟩]
      (goDeref scorePtr).map (fun v => (decisions, v))
  | (scorePtr, none) =>
      match privRes with
      | .error e =>
          let decisions : List Decision :=
            [⟨false, s!"IP validation failed: {e}", "N/A"⟩]
          (goDeref scorePtr).map (fun v => (decisions, v))
      | .ok isPrivate =>
          (goDeref scorePtr).map (fun v =>
            (shouldBlockDecisions isPrivate v bls, v))

/-! ## Reputation store facade (`internal/sqlite`, `src/unnamed/part_008`)

Timestamps are rational numbers of hours.  The `float64` decay pipeline
(`math.Pow`, `math.Round`) is idealised over `ℝ`, which makes the decay
computation noncomputable; every branching decision of `Lookup` stays on
`ℚ`/`Bool` and remains kernel-reducible. -/

/-- Constant `cacheTTL = 5 * time.Minute`, in hours. -/
def cacheTTL : ℚ := 5 / 60

/-- Constant `decayHalfLife = 72 * time.Hour`, as hours (`decayHalfLife.Hours()`). -/
noncomputable def decayHalfLifeHours : ℝ := 72

/-- Constant `minDecayMultiplier = 0.3`. -/
noncomputable def minDecayMultiplier : ℝ := 3 / 10

/-- Function `calculateDecayMultiplier` (`part_008`): `0.5^(hoursOld/72)`, floored
at `minDecayMultiplier`.  `hoursOld` is `time.Since(updatedAt).Hours()`,
passed in directly. -/
noncomputable def calculateDecayMultiplier (hoursOld : ℝ) : ℝ :=
  let decay := (1 / 2 : ℝ) ^ (hoursOld / decayHalfLifeHours)
  if decay < minDecayMultiplier then minDecayMultiplier else decay

/-- Go `math.Round`: round half away from zero. -/
noncomputable def goRound (x : ℝ) : ℤ :=
  if 0 ≤ x then ⌊x + 1 / 2⌋ else ⌈x - 1 / 2⌉

/-- Function `applyDecay` (`part_008`): `0` for a zero score, otherwise the raw
score times the decay multiplier, rounded to the nearest integer. -/
noncomputable def applyDecay (originalScore : ℤ) (hoursOld : ℝ) : ℤ :=
  if originalScore = 0 then 0
  else goRound ((originalScore : ℝ) * calculateDecayMultiplier hoursOld)

/-- Struct `cachedScore` (`part_008`). -/
structure CachedScore where
  score : ℤ
  updatedAt : ℚ
  cachedAt : ℚ
deriving DecidableEq, Repr

/-- Struct `types.ScoreDBRecord` as read by `DBLookup` (`part_008`). -/
structure ScoreDBRecord where
  ip : String
  score : ℤ
  updatedAt : ℚ
deriving DecidableEq, Repr

/-- Outcome of the `ip_scores` point query in `DBLookup`:
a scan error, `sql.ErrNoRows`, or a record. -/
inductive StoreReply where
  | err (msg : String)
  | noRows
  | found (r : ScoreDBRecord)
deriving DecidableEq

/-- State owned by the facade: whether `InitCache` ran (`ScoreCache` is
non-nil), the LRU contents as an association list, and the on-disk store
as a query function. -/
structure FacadeState where
  cacheInit : Bool
  cache : List (String × CachedScore)
  store : String → StoreReply

/-- Method `ScoreCache.Get`. -/
def cacheGet (cache : List (String × CachedScore)) (ip : String) : Option CachedScore :=
  (cache.find? (fun p => p.1 = ip)).map Prod.snd

/-- Method `ScoreCache.Add` (capacity-based LRU eviction is not modelled; none
of the verified claims depends on eviction). -/
def cacheAdd (cache : List (String × CachedScore)) (ip : String) (e : CachedScore) :
    List (String × CachedScore) :=
  (ip, e) :: cache.filter (fun p => p.1 ≠ ip)

/-- Method `ScoreCache.Remove`. -/
def cacheRemove (cache : List (String × CachedScore)) (ip : String) :
    List (String × CachedScore) :=
  cache.filter (fun p => p.1 ≠ ip)

/-- The cache-miss tail of `Lookup` (`part_008`): query the store; on
`sql.ErrNoRows` return `0` without caching; on success cache
`{raw, updated_at, cached_at := now}` and return the decayed score.  The
result pair models Go's `(*int32, error)`. -/
noncomputable def lookupDB (st : FacadeState) (now : ℚ) (ip : String) :
    (Option Int × Option String) × FacadeState :=
  match st.store ip with
  | .err e => ((none, some e), st)
  | .noRows => ((some 0, none), st)
  | .found r =>
      let st' := { st with cache := cacheAdd st.cache ip ⟨r.score, r.updatedAt, now⟩ }
      ((some (applyDecay r.score ((now : ℝ) - (r.updatedAt : ℝ))), none), st')

/-- Function `Lookup` (`part_008`): nil-cache guard, TTL-bounded cache hit with
decay applied to the cached raw score, otherwise the DB fallback. -/
noncomputable def lookup (st : FacadeState) (now : ℚ) (ip : String) :
    (Option Int × Option String) × FacadeState :=
  if !st.cacheInit then
    ((none, some ("score cache not initialized")), st)
  else
    match cacheGet st.cache ip with
    | some entry =>
        if now - entry.cachedAt < cacheTTL then
          ((some (applyDecay entry.score ((now : ℝ) - (entry.updatedAt : ℝ))), none), st)
        else
          lookupDB st now ip
    | none => lookupDB st now ip

/-- Sensor-level state touched by a `score-update` push message:
the facade plus the recommendation deduplication cache keys. -/
structure SensorState where
  facade : FacadeState
  recommendCache : List String

/-- The `score-update` arm of `ProcessUpdate` (`updater.go`):
`sqlite.UpsertIpScore` writes the pushed raw score for the IP (with the
write time as `updated_at`), `sqlite.ScoreCache.Remove(ip)` invalidates
the score cache, and `removeRecommendCacheEntriesByIP` (`sync.go`) purges
dedup keys with prefix `"ip:<ip>:"`. -/
def processScoreUpdate (st : SensorState) (ip : String) (newScore : ℤ) (t : ℚ) :
    SensorState :=
  { facade :=
      { st.facade with
        store := fun x => if x = ip then .found ⟨ip, newScore, t⟩ else st.facade.store x
        cache := cacheRemove st.facade.cache ip }
    recommendCache :=
      st.recommendCache.filter (fun key => !(("ip:" ++ ip ++ ":").isPrefixOf key)) }

/-- A sequence of `Lookup` calls for one IP, threading the facade state
(each call may insert into the score cache). -/
noncomputable def lookupTrace (st : FacadeState) (ip : String) :
    List ℚ → List (Option Int × Option String)
  | [] => []
  | t :: ts =>
      let r := lookup st t ip
      r.1 :: lookupTrace r.2 ip ts

/-! ## SHA-256 (`crypto/sha256`), as used by `generateCacheKey`

A byte-level implementation over `Nat`, with all word arithmetic
explicitly reduced modulo `2^32`. -/

/-- Truncate to a 32-bit word. -/
def w32 (x : Nat) : Nat := x % 4294967296

/-- 32-bit rotate right. -/
def rotr32 (x n : Nat) : Nat := w32 ((x >>> n) ||| (x <<< (32 - n)))

/-- SHA-256 `Σ0`. -/
def bigSigma0 (x : Nat) : Nat := rotr32 x 2 ^^^ rotr32 x 13 ^^^ rotr32 x 22

/-- SHA-256 `Σ1`. -/
def bigSigma1 (x : Nat) : Nat := rotr32 x 6 ^^^ rotr32 x 11 ^^^ rotr32 x 25

/-- SHA-256 `σ0`. -/
def smallSigma0 (x : Nat) : Nat := rotr32 x 7 ^^^ rotr32 x 18 ^^^ (x >>> 3)

/-- SHA-256 `σ1`. -/
def smallSigma1 (x : Nat) : Nat := rotr32 x 17 ^^^ rotr32 x 19 ^^^ (x >>> 10)

/-- SHA-256 `Ch(x,y,z) = (x ∧ y) ⊕ (¬x ∧ z)` on 32-bit words. -/
def chGate (x y z : Nat) : Nat := (x &&& y) ^^^ ((x ^^^ 4294967295) &&& z)

/-- SHA-256 `Maj(x,y,z)`. -/
def majGate (x y z : Nat) : Nat := (x &&& y) ^^^ (x &&& z) ^^^ (y &&& z)

/-- The 64 SHA-256 round constants. -/
def sha256K : List Nat :=
  [1116352408, 1899447441, 3049323471, 3921009573, 961987163,
   1508970993, 2453635748, 2870763221, 3624381080, 310598401,
   607225278, 1426881987, 1925078388, 2162078206, 2614888103,
   3248222580, 3835390401, 4022224774, 264347078, 604807628,
   770255983, 1249150122, 1555081692, 1996064986, 2554220882,
   2821834349, 2952996808, 3210313671, 3336571891, 3584528711,
   113926993, 338241895, 666307205, 773529912, 1294757372,
   1396182291, 1695183700, 1986661051, 2177026350, 2456956037,
   2730485921, 2820302411, 3259730800, 3345764771, 3516065817,
   3600352804, 4094571909, 275423344, 430227734, 506948616,
   659060556, 883997877, 958139571, 1322822218, 1537002063,
   1747873779, 1955562222, 2024104815, 2227730452, 2361852424,
   2428436474, 2756734187, 3204031479, 3329325298]

/-- The eight 32-bit working variables / hash words. -/
structure Hash8 where
  a : Nat
  b : Nat
  c : Nat
  d : Nat
  e : Nat
  f : Nat
  g : Nat
  h : Nat
deriving DecidableEq, Repr

/-- Initial SHA-256 hash value. -/
def sha256init : Hash8 :=
  ⟨1779033703, 3144134277, 1013904242, 2773480762,
   1359893119, 2600822924, 528734635, 1541459225⟩

/-- The `n` big-endian bytes of `v`. -/
def beBytes : Nat → Nat → List Nat
  | 0, _ => []
  | k + 1, v => beBytes k (v >>> 8) ++ [v &&& 255]

/-- SHA-256 padding: append `0x80`, zeros, and the 64-bit big-endian bit
length, to a multiple of 64 bytes. -/
def sha256pad (msg : List Nat) : List Nat :=
  let len := msg.length
  let zeros := (64 - (len + 9) % 64) % 64
  msg ++ 128 :: List.replicate zeros 0 ++ beBytes 8 (len * 8)

/-- Big-endian 32-bit words of a byte list. -/
def toWords : List Nat → List Nat
  | b0 :: b1 :: b2 :: b3 :: rest =>
      (((b0 * 256 + b1) * 256 + b2) * 256 + b3) :: toWords rest
  | _ => []

/-- One message-schedule extension step, on the reversed schedule. -/
def schedStep (revW : List Nat) : List Nat :=
  let g := fun (i : Nat) => revW.getD i 0
  w32 (g 15 + smallSigma0 (g 14) + g 6 + smallSigma1 (g 1)) :: revW

/-- The 64-word message schedule of one 16-word block. -/
def schedule (w16 : List Nat) : List Nat :=
  ((List.range 48).foldl (fun r _ => schedStep r) w16.reverse).reverse

/-- One SHA-256 compression round. -/
def roundStep (s : Hash8) (wk : Nat × Nat) : Hash8 :=
  let t1 := w32 (s.h + bigSigma1 s.e + chGate s.e s.f s.g + wk.2 + wk.1)
  let t2 := w32 (bigSigma0 s.a + majGate s.a s.b s.c)
  ⟨w32 (t1 + t2), s.a, s.b, s.c, w32 (s.d + t1), s.e, s.f, s.g⟩

/-- Compress one 16-word block into the running hash. -/
def compressBlock (hs : Hash8) (w16 : List Nat) : Hash8 :=
  let r := ((schedule w16).zip sha256K).foldl roundStep hs
  ⟨w32 (hs.a + r.a), w32 (hs.b + r.b), w32 (hs.c + r.c), w32 (hs.d + r.d),
   w32 (hs.e + r.e), w32 (hs.f + r.f), w32 (hs.g + r.g), w32 (hs.h + r.h)⟩

/-- Fold the compression function over all 16-word blocks (fuel-driven
structural recursion; the fuel is an upper bound on the block count). -/
def sha256words (fuel : Nat) (hs : Hash8) (ws : List Nat) : Hash8 :=
  match fuel with
  | 0 => hs
  | fuel + 1 =>
      match ws with
      | [] => hs
      | _ => sha256words fuel (compressBlock hs (ws.take 16)) (ws.drop 16)

/-- The 32-byte SHA-256 digest of a byte list. -/
def sha256bytes (msg : List Nat) : List Nat :=
  let ws := toWords (sha256pad msg)
  let hs := sha256words ws.length sha256init ws
  beBytes 4 hs.a ++ beBytes 4 hs.b ++ beBytes 4 hs.c ++ beBytes 4 hs.d ++
  beBytes 4 hs.e ++ beBytes 4 hs.f ++ beBytes 4 hs.g ++ beBytes 4 hs.h

/-- Lowercase hexadecimal digit. -/
def hexDigit (n : Nat) : Char :=
  if n < 10 then Char.ofNat (48 + n) else Char.ofNat (87 + n)

/-- Go `hex.EncodeToString`. -/
def bytesToHex (l : List Nat) : String :=
  String.mk (l.foldr (fun b acc => hexDigit (b / 16) :: hexDigit (b % 16) :: acc) [])

/-- UTF-8 bytes of a character. -/
def utf8Char (c : Char) : List Nat :=
  let n := c.toNat
  if n < 128 then [n]
  else if n < 2048 then [192 ||| (n >>> 6), 128 ||| (n &&& 63)]
  else if n < 65536 then
    [224 ||| (n >>> 12), 128 ||| ((n >>> 6) &&& 63), 128 ||| (n &&& 63)]
  else
    [240 ||| (n >>> 18), 128 ||| ((n >>> 12) &&& 63),
     128 ||| ((n >>> 6) &&& 63), 128 ||| (n &&& 63)]

/-- UTF-8 bytes of a string. -/
def utf8Bytes (s : String) : List Nat :=
  s.data.foldr (fun c acc => utf8Char c ++ acc) []

/-! ## Deduplication cache key (`internal/arbiter/sync.go`)

`generateCacheKey` sorts the decisions in place with
`sort.Slice(decisions, less)` where
`less i j = Reason_i + Blocklist_i < Reason_j + Blocklist_j`, serialises
them with `encoding/json`, hashes with SHA-256, and keeps the first 8
digest bytes in lowercase hex.  For slices shorter than 12 elements Go's
`sort.Slice` runs plain insertion sort, which preserves the input order
of comparator ties exactly as `List.insertionSort` does. -/

/-- Go `encoding/json` escaping of one character inside a string literal
(the default `HTMLEscape`-on encoder). -/
def jsonEscapeChar (c : Char) : List Char :=
  if c = '"' then ['\\', '"']
  else if c = '\\' then ['\\', '\\']
  else if c = '\n' then ['\\', 'n']
  else if c = '\r' then ['\\', 'r']
  else if c = '\t' then ['\\', 't']
  else if c.toNat < 32 || c = '<' || c = '>' || c = '&' then
    ['\\', 'u', '0', '0', hexDigit (c.toNat / 16), hexDigit (c.toNat % 16)]
  else if c.toNat = 8232 || c.toNat = 8233 then
    ['\\', 'u', '2', '0', '2', hexDigit (c.toNat % 16)]
  else [c]

/-- Go `encoding/json` string literal. -/
def jsonString (s : String) : String :=
  "\"" ++ String.mk (s.data.foldr (fun c acc => jsonEscapeChar c ++ acc) []) ++ "\""

/-- Go `json.Marshal` of a `types.Decision` (field tags
`block`, `reason`, `blocklist`). -/
def jsonDecision (d : Decision) : String :=
  "\x7b\"block\":" ++ (if d.block then "true" else "false") ++
  ",\"reason\":" ++ jsonString d.reason ++
  ",\"blocklist\":" ++ jsonString d.blocklist ++ "\x7d"

/-- Go `json.Marshal` of a non-empty `[]types.Decision` (a `nil` slice would
marshal to `null`, but `generateCacheKey` is only reached with a
non-empty `blocksToReport`). -/
def jsonDecisions (ds : List Decision) : String :=
  "[" ++ String.intercalate (",") (ds.map jsonDecision) ++ "]"

/-- The comparator key of `sort.Slice` in `generateCacheKey`:
`Reason + Blocklist` (string concatenation). -/
def decisionSortKey (d : Decision) : String := d.reason ++ d.blocklist

/-- Go `<` on strings: lexicographic comparison of the UTF-8 bytes
(equivalently, of the code points, as UTF-8 is order-preserving). -/
def charsLt : List Char → List Char → Bool
  | _, [] => false
  | [], _ :: _ => true
  | a :: as, b :: bs =>
      if a.toNat < b.toNat then true
      else if b.toNat < a.toNat then false
      else charsLt as bs

/-- The strict `less` comparator passed to `sort.Slice` in
`generateCacheKey`. -/
def decisionLtB (a b : Decision) : Bool :=
  charsLt (decisionSortKey a).data (decisionSortKey b).data

/-- The non-strict relation the sort orders by (`¬ less b a`). -/
def decisionLe (a b : Decision) : Prop := decisionLtB b a = false

instance : DecidableRel decisionLe :=
  fun _ _ => inferInstanceAs (Decidable (_ = false))

/-- The in-place `sort.Slice` of `generateCacheKey`, by
`(Reason + Blocklist)`. -/
def sortDecisions (ds : List Decision) : List Decision :=
  ds.insertionSort decisionLe

/-- Function `generateCacheKey` (`sync.go`): sort, marshal to JSON, SHA-256, first
8 digest bytes as lowercase hex, wrapped as
`"ip:<ip>:decisions:<hash>"`. -/
def generateCacheKey (ip : String) (decisions : List Decision) : String :=
  let sorted := sortDecisions decisions
  let digest := sha256bytes (utf8Bytes (jsonDecisions sorted))
  "ip:" ++ ip ++ ":decisions:" ++ bytesToHex (digest.take 8)

/-! ## Submission client and alert path (`utils/apiClient.go`,
`internal/arbiter/alert.go`)

`DoRequest` is modelled as a function of the per-attempt network
outcome; error values carry an approximation of the Go error message
(the exact text is irrelevant to the claims, the error *type* is what
matters: only `*RateLimitError` values satisfy `isRateLimitError`). -/

/-- Outcome of one `httpClient.Do` attempt. -/
inductive AttemptOutcome where
  | transportErr (msg : String)
  | response (status : Nat) (body : String)

/-- The two error shapes reaching `SendAlert`: the typed
`arbiter.RateLimitError`, and every `fmt.Errorf`-produced error. -/
inductive ApiError where
  | rateLimit (statusCode : Nat) (message : String)
  | generic (msg : String)
deriving DecidableEq, Repr

/-- Function `isRateLimitError` (`queue.go`): a type assertion to
`*RateLimitError`. -/
def isRateLimitError : ApiError → Bool
  | .rateLimit _ _ => true
  | .generic _ => false

/-- The retry loop of `APIClient.DoRequest` (`apiClient.go`), from a
given attempt index with a given number of retries left.  A response is
returned to the caller only when its status is `200`; `429` falls into
the non-retriable branch and becomes a generic error. -/
def doRequestAux (outcomes : Nat → AttemptOutcome) :
    Nat → Nat → Except ApiError (Nat × String)
  | attempt, remaining =>
    match outcomes attempt with
    | .transportErr m =>
        match remaining with
        | r + 1 => doRequestAux outcomes (attempt + 1) r
        | 0 => .error (.generic ("failed to fetch data after retries: " ++ m))
    | .response status body =>
        if status = 200 then .ok (status, body)
        else
          match remaining with
          | r + 1 =>
              if 500 ≤ status then doRequestAux outcomes (attempt + 1) r
              else .error (.generic ("API returned status " ++ toString status))
          | 0 => .error (.generic ("API returned status " ++ toString status))

/-- Method `APIClient.DoRequest` with the default `MaxRetries = 3`. -/
def doRequest (outcomes : Nat → AttemptOutcome) : Except ApiError (Nat × String) :=
  doRequestAux outcomes 0 3

/-- Function `sendAlertInternal` (`alert.go`): perform the `/alert` POST through
`DoRequest`; inspect the returned response for `429` and `>= 400`. -/
def sendAlertInternal (outcomes : Nat → AttemptOutcome) : Except ApiError Unit :=
  match doRequest outcomes with
  | .error e => .error e
  | .ok (status, body) =>
      if status = 429 then .error (.rateLimit status body)
      else if 400 ≤ status then
        .error (.generic ("alert request failed with status " ++ toString status
          ++ ": " ++ body))
      else .ok ()

/-- Struct `arbiter.AlertData`. -/
structure AlertData where
  ipType : String
  ip : String
  relatedIp : String
  source : Source
deriving DecidableEq, Repr

/-- The payload of a `QueuedItem` (`queue.go`: `Data interface{}`). -/
inductive QueueData where
  | alert (a : AlertData)
  | recommendation (ip : String) (decisions : List Decision)
deriving DecidableEq, Repr

/-- Struct `arbiter.QueuedItem`; `nextRetry` in seconds. -/
structure QueuedItem where
  itemType : String
  data : QueueData
  attempts : Nat
  nextRetry : ℚ
deriving DecidableEq, Repr

/-- Method `RetryQueue.Add` (`queue.go`): `attempts = 0`,
`NextRetry = now + 5s`. -/
def queueAdd (items : List QueuedItem) (now : ℚ) (itemType : String)
    (data : QueueData) : List QueuedItem :=
  items ++ [⟨itemType, data, 0, now + 5⟩]

/-- Function `SendAlert` (`alert.go`): on a rate-limit error, enqueue the alert
in the retry queue and return success; otherwise propagate the result.
Returns the Go return value together with the retry queue contents. -/
def sendAlert (outcomes : Nat → AttemptOutcome) (a : AlertData)
    (queue : List QueuedItem) (now : ℚ) : Except ApiError Unit × List QueuedItem :=
  match sendAlertInternal outcomes with
  | .error e =>
      if isRateLimitError e then
        (.ok (), queueAdd queue now ("alert") (.alert a))
      else (.error e, queue)
  | .ok () => (.ok (), queue)

/-! ## Retry queue drain (`internal/arbiter/queue.go`) -/

/-- The backoff computed in `processReadyItems` after the increment:
`min(5 * 2^attempts seconds, 5 minutes)`. -/
def backoffSeconds (attempts : Nat) : ℚ := min (5 * 2 ^ attempts) 300

/-- The treatment of one queue entry inside the `processReadyItems`
loop: keep it untouched when not yet due, drop it on success, otherwise
increment `attempts`, drop at the `maxAttempts = 10` cap, else re-enqueue
with the capped exponential backoff.  `send` is the outcome of the
corresponding internal sender (`err == nil`). -/
def stepItem (now : ℚ) (send : QueuedItem → Bool) (item : QueuedItem) :
    Option QueuedItem :=
  if now < item.nextRetry then some item
  else if send item then none
  else
    let attempts := item.attempts + 1
    if 10 ≤ attempts then none
    else some { item with attempts := attempts, nextRetry := now + backoffSeconds attempts }

/-- Function `processReadyItems` (`queue.go`): the loop builds `remaining` by
keeping exactly the items `stepItem` keeps, in order. -/
def processReadyItems (items : List QueuedItem) (now : ℚ)
    (send : QueuedItem → Bool) : List QueuedItem :=
  items.filterMap (stepItem now send)

/-- Retry-queue contents reachable from the empty queue through `Add`
and drain iterations. -/
inductive QueueReachable : List QueuedItem → Prop
  | empty : QueueReachable []
  | add (q : List QueuedItem) (now : ℚ) (t : String) (d : QueueData) :
      QueueReachable q → QueueReachable (queueAdd q now t d)
  | process (q : List QueuedItem) (now : ℚ) (send : QueuedItem → Bool) :
      QueueReachable q → QueueReachable (processReadyItems q now send)

/-! ## Evaluation flow (`internal/arbiter/recommend.go`: `EvaluateAndAct`)

The dedup-and-submit tail of `EvaluateAndAct`, as a transition on the
recommendation cache, the log of initiated `/recommend` submissions
(identified by their dedup key) and the retry queue.  The outcome of
`recommendInternal` is an input; its returned error is discarded by
`EvaluateAndAct` (the call's return value is not used). -/

/-- Outcome of `recommendInternal` for one initiated submission. -/
inductive SubmitOutcome where
  | accepted
  | rateLimited (msg : String)
  | failed (msg : String)
deriving DecidableEq, Repr

/-- The mutable state touched by the recommendation tail of
`EvaluateAndAct`. -/
structure EvalState where
  recommendCache : List String
  submissions : List String
  retryQueue : List QueuedItem
deriving DecidableEq, Repr

/-- One evaluation input: the IP, the blocking decisions produced for
it, the network outcome its submission would get, and the clock. -/
structure EvalInput where
  ip : String
  blocks : List Decision
  outcome : SubmitOutcome
  now : ℚ

/-- The recommendation tail of `EvaluateAndAct` (`recommend.go`): with
no blocking decisions, do nothing; when the dedup key is cached, skip;
otherwise insert the key into `RecommendCache`, *then* call
`recommend`, which initiates the `/recommend` POST and enqueues the
payload in the retry queue when (and only when) it was rate limited.
The cache insertion is never rolled back. -/
def evalStep (st : EvalState) (inp : EvalInput) : EvalState :=
  if inp.blocks = [] then st
  else
    let key := generateCacheKey inp.ip inp.blocks
    if key ∈ st.recommendCache then st
    else
      let st' := { st with
        recommendCache := key :: st.recommendCache
        submissions := st.submissions ++ [key] }
      match inp.outcome with
      | .rateLimited _ =>
          let d := QueueData.recommendation inp.ip (sortDecisions inp.blocks)
          { st' with retryQueue := queueAdd st'.retryQueue inp.now ("recommendation") d }
      | _ => st'

/-- A sequence of `EvaluateAndAct` calls (the recommendation tail). -/
def evalTrace (st : EvalState) : List EvalInput → EvalState
  | [] => st
  | i :: is => evalTrace (evalStep st i) is

/-! ## Context propagation (`internal/arbiter/sync.go`:
`ReloadSubsystems`; `internal/arbiter/runtimeControler.go`)

Go `context.Context` derivation is modelled as a tree: a context
observes root cancellation exactly when the root is among its
ancestors. -/

/-- A Go context: the root context of the process, `context.Background()`,
or a `context.WithCancel` child. -/
inductive GoCtx where
  | root
  | background
  | child (parent : GoCtx)
deriving DecidableEq, Repr

/-- Whether cancelling the root context reaches this context. -/
def derivesFromRoot : GoCtx → Bool
  | .root => true
  | .background => false
  | .child p => derivesFromRoot p

/-- An ingest adapter goroutine started with its cancellation scope. -/
structure SubsystemTask where
  name : String
  ctx : GoCtx
deriving DecidableEq, Repr

/-- The tasks (re)started by `ReloadSubsystems` (`sync.go`): the traffic
monitor runs under `context.WithCancel(rootCtx)`, but the syslog server
runs under `context.WithCancel(context.Background())`. -/
def reloadSubsystems (rootCtx : GoCtx) (sniffTraffic runSyslog : Bool) :
    List SubsystemTask :=
  (if sniffTraffic then [⟨"traffic", .child rootCtx⟩] else []) ++
  (if runSyslog then [⟨"syslog", .child .background⟩] else [])

/-- Function `HandleChangeSniffTraffic` (`runtimeControler.go`): the traffic
monitor restarted here runs under `context.WithCancel(rootCtx)`. -/
def handleChangeSniffTraffic (rootCtx : GoCtx) (sniffTraffic : Bool) :
    List SubsystemTask :=
  if sniffTraffic then [⟨"traffic", .child rootCtx⟩] else []

/-! ## Theorems -/

/-- C9: the claim states that cancelling the root context propagates to
every spawned task, including ingest adapters started or restarted by a
subsystem reload.  The code violates this: `ReloadSubsystems` starts the
syslog server under `context.WithCancel(context.Background())`, so its
context does not derive from the root and root cancellation never
reaches it (while the traffic monitor, and the adapters started by
`HandleChangeSniffTraffic`, correctly derive from the root). -/
theorem reloadSubsystems_syslog_escapes_root_cancellation :
    reloadSubsystems .root true true =
      [⟨"traffic", .child .root⟩, ⟨"syslog", .child .background⟩] ∧
    (∃ task ∈ reloadSubsystems .root true true, derivesFromRoot task.ctx = false) ∧
    (∀ task ∈ handleChangeSniffTraffic .root true, derivesFromRoot task.ctx = true) := by
  decide

/-- C2: the claim states that an `/alert` submission receiving HTTP 429
yields a typed `RateLimitError` and that `SendAlert` enqueues the alert
and returns success.  The code violates this: `DoRequest` only returns a
response whose status is 200, so a 429 response surfaces as a generic
`fmt.Errorf` error, the `429` branch of `sendAlertInternal` is
unreachable, `isRateLimitError` is false, and `SendAlert` returns the
error without enqueueing anything. -/
theorem sendAlert_429_is_generic_error_not_enqueued (a : AlertData)
    (queue : List QueuedItem) (now : ℚ) :
    sendAlert (fun _ => .response 429 "Too Many Requests") a queue now =
      (.error (.generic ("API returned status 429")), queue) ∧
    isRateLimitError (.generic ("API returned status 429")) = false := by
  exact ⟨rfl, rfl⟩

/-- Method `DoRequest` only ever hands a response to its caller when the status
is 200: every non-200 outcome (429 included) is converted to an error. -/
theorem doRequestAux_ok_status (outcomes : Nat → AttemptOutcome) :
    ∀ remaining attempt status body,
      doRequestAux outcomes attempt remaining = .ok (status, body) → status = 200 := by
  intro remaining
  induction remaining with
  | zero =>
      intro attempt status body h
      unfold doRequestAux at h
      cases houtcome : outcomes attempt with
      | transportErr m => simp [houtcome] at h
      | response s b =>
          simp only [houtcome] at h
          by_cases hs : s = 200
          · rw [if_pos hs] at h
            cases h
            exact hs
          · rw [if_neg hs] at h
            exact absurd h (by simp)
  | succ r ih =>
      intro attempt status body h
      unfold doRequestAux at h
      cases houtcome : outcomes attempt with
      | transportErr m =>
          simp only [houtcome] at h
          exact ih (attempt + 1) status body h
      | response s b =>
          simp only [houtcome] at h
          by_cases hs : s = 200
          · rw [if_pos hs] at h
            cases h
            exact hs
          · rw [if_neg hs] at h
            by_cases h5 : 500 ≤ s
            · rw [if_pos h5] at h
              exact ih (attempt + 1) status body h
            · rw [if_neg h5] at h
              exact absurd h (by simp)

/-- Witness for `doRequestAux_ok_status` at a concrete run. -/
theorem doRequestAux_ok_status_witness :
    doRequestAux (fun _ => .response 200 "ok") 0 3 = .ok (200, "ok") ∧ (200 : Nat) = 200 :=
  ⟨rfl, doRequestAux_ok_status (fun _ => .response 200 "ok") 3 0 200 "ok" rfl⟩

/-- C5: for the decision engine, every blocking decision names a
blocklist from the snapshot that includes the IP's private/public class
and whose class-specific threshold the score meets (hence a private IP
never gets a blocking decision from a blocklist with
`include_private = false`, and symmetrically for public IPs); and when no
blocklist produces a blocking decision, the result is exactly one
non-blocking decision with `blocklist = "None"`. -/
theorem shouldBlockDecisions_policy (isPrivate : Bool) (score : Int)
    (bls : List Blocklist) :
    (∀ d ∈ shouldBlockDecisions isPrivate score bls, d.block = true →
      ∃ bl ∈ bls, d.blocklist = bl.name ∧
        (isPrivate = true → bl.shouldIncludePrivateIPs = true ∧
          bl.nfgScoreThresholdPrivateIPs ≤ score) ∧
        (isPrivate = false → bl.shouldIncludePublicIPs = true ∧
          bl.nfgScoreThresholdPublicIPs ≤ score)) ∧
    ((∀ bl ∈ bls, blocklistStep isPrivate score bl = none) →
      shouldBlockDecisions isPrivate score bls =
        [⟨false, s!"Score {score} did not meet any blocklist threshold", "None"⟩]) := by
  constructor
  · intro d hd hblock
    unfold shouldBlockDecisions at hd
    by_cases hnil : bls.filterMap (blocklistStep isPrivate score) = []
    · rw [if_pos hnil] at hd
      simp only [List.mem_singleton] at hd
      subst hd
      exact absurd hblock (by simp)
    · rw [if_neg hnil] at hd
      obtain ⟨bl, hbl, hstep⟩ := List.mem_filterMap.mp hd
      refine ⟨bl, hbl, ?_⟩
      unfold blocklistStep at hstep
      by_cases h1 : isPrivate && !bl.shouldIncludePrivateIPs
      · rw [if_pos h1] at hstep; exact absurd hstep (by simp)
      · rw [if_neg h1] at hstep
        by_cases h2 : !isPrivate && !bl.shouldIncludePublicIPs
        · rw [if_pos h2] at hstep; exact absurd hstep (by simp)
        · rw [if_neg h2] at hstep
          by_cases h3 : score ≥ (if isPrivate then bl.nfgScoreThresholdPrivateIPs
              else bl.nfgScoreThresholdPublicIPs)
          · rw [if_pos h3] at hstep
            cases hstep
            refine ⟨rfl, ?_, ?_⟩
            · intro hp
              subst hp
              simp at h1
              exact ⟨h1, by simpa using h3⟩
            · intro hp
              subst hp
              simp at h2
              exact ⟨h2, by simpa using h3⟩
          · rw [if_neg h3] at hstep
            exact absurd hstep (by simp)
  · intro hnone
    unfold shouldBlockDecisions
    rw [List.filterMap_eq_nil_iff.mpr hnone]
    simp

/-- Witness for `shouldBlockDecisions_policy`: a private IP with score 50
against a single public-only blocklist gets only the `"None"` fallback. -/
theorem shouldBlockDecisions_policy_witness :
    shouldBlockDecisions true 50 [⟨1, "BL1", false, true, 10, 20⟩] =
      [⟨false, "Score 50 did not meet any blocklist threshold", "None"⟩] :=
  (shouldBlockDecisions_policy true 50 [⟨1, "BL1", false, true, 10, 20⟩]).2 (by decide)

/-- Auxiliary invariant for the retry queue: every queue reachable from
the empty queue holds only items with `attempts ≤ 9` (an item whose
incremented count reaches the `maxAttempts = 10` cap is dropped, never
re-enqueued). -/
theorem queueReachable_attempts_le_nine (q : List QueuedItem)
    (hq : QueueReachable q) : ∀ it ∈ q, it.attempts ≤ 9 := by
  induction hq with
  | empty => intro it hit; exact absurd hit (List.not_mem_nil it)
  | add q now t d _ ih =>
      intro it hit
      unfold queueAdd at hit
      rcases List.mem_append.mp hit with h | h
      · exact ih it h
      · simp only [List.mem_singleton] at h
        subst h
        exact Nat.zero_le 9
  | process q now send _ ih =>
      intro it hit
      unfold processReadyItems at hit
      obtain ⟨src, hsrc, hstep⟩ := List.mem_filterMap.mp hit
      unfold stepItem at hstep
      by_cases hready : now < src.nextRetry
      · rw [if_pos hready] at hstep
        rw [Option.some.injEq] at hstep
        subst hstep
        exact ih src hsrc
      · rw [if_neg hready] at hstep
        by_cases hsend : send src
        · rw [if_pos hsend] at hstep
          exact absurd hstep (by simp)
        · rw [if_neg hsend] at hstep
          by_cases hcap : 10 ≤ src.attempts + 1
          · rw [if_pos hcap] at hstep
            exact absurd hstep (by simp)
          · rw [if_neg hcap] at hstep
            rw [Option.some.injEq] at hstep
            subst hstep
            show src.attempts + 1 ≤ 9
            omega

/-- C6: for every item in the retry queue, `attempts` never exceeds 10
(in fact it never exceeds 9 inside the queue); a ready item whose retried
submission succeeds is dropped (not re-enqueued, so never attempted
again); and a ready item whose submission fails is re-enqueued with its
next retry time set to `now + min(5·2^attempts seconds, 5 minutes)`
computed from the incremented attempt count. -/
theorem retryQueue_attempts_and_backoff :
    (∀ q, QueueReachable q → ∀ it ∈ q, it.attempts ≤ 10) ∧
    (∀ (now : ℚ) (send : QueuedItem → Bool) (it : QueuedItem),
      ¬ now < it.nextRetry → send it = true → stepItem now send it = none) ∧
    (∀ (now : ℚ) (send : QueuedItem → Bool) (it : QueuedItem),
      ¬ now < it.nextRetry → send it = false → it.attempts + 1 < 10 →
      stepItem now send it =
        some ⟨it.itemType, it.data, it.attempts + 1,
              now + min (5 * 2 ^ (it.attempts + 1)) 300⟩) := by
  refine ⟨?_, ?_, ?_⟩
  · intro q hq it hit
    exact Nat.le_trans (queueReachable_attempts_le_nine q hq it hit) (by omega)
  · intro now send it hready hsend
    unfold stepItem
    rw [if_neg hready, if_pos hsend]
  · intro now send it hready hsend hcap
    unfold stepItem
    rw [if_neg hready]
    rw [if_neg (by rw [hsend]; exact Bool.false_ne_true)]
    rw [if_neg (by omega)]
    rfl

/-- Witness for `retryQueue_attempts_and_backoff` at concrete inputs:
a freshly added alert item has `attempts ≤ 10`; a due item is dropped on
success; a due item is re-enqueued with backoff `min(5·2^1, 300) = 10`
seconds on failure. -/
theorem retryQueue_attempts_and_backoff_witness :
    (∀ it ∈ queueAdd [] 0 "alert"
        (.alert ⟨"source", "1.2.3.4", "5.6.7.8", ⟨"interface", "eth0"⟩⟩),
      it.attempts ≤ 10) ∧
    stepItem 5 (fun _ => true)
      ⟨"alert", .alert ⟨"source", "1.2.3.4", "5.6.7.8", ⟨"interface", "eth0"⟩⟩, 0, 5⟩
      = none ∧
    stepItem 5 (fun _ => false)
      ⟨"alert", .alert ⟨"source", "1.2.3.4", "5.6.7.8", ⟨"interface", "eth0"⟩⟩, 0, 5⟩
      = some ⟨"alert", .alert ⟨"source", "1.2.3.4", "5.6.7.8", ⟨"interface", "eth0"⟩⟩,
              1, 5 + min (5 * 2 ^ 1) 300⟩ := by
  refine ⟨?_, ?_, ?_⟩
  · exact retryQueue_attempts_and_backoff.1 _
      (QueueReachable.add [] 0 "alert" _ QueueReachable.empty)
  · exact retryQueue_attempts_and_backoff.2.1 5 (fun _ => true) _ (by norm_num) rfl
  · exact retryQueue_attempts_and_backoff.2.2 5 (fun _ => false) _ (by norm_num) rfl
      (by norm_num)

/-- Shape of one `EvaluateAndAct` step: either the state's cache and
submission log are untouched, or a previously uncached dedup key is
inserted and exactly one submission with that key is initiated. -/
theorem evalStep_shape (st : EvalState) (i : EvalInput) :
    ((evalStep st i).submissions = st.submissions ∧
      (evalStep st i).recommendCache = st.recommendCache) ∨
    ((evalStep st i).submissions = st.submissions ++ [generateCacheKey i.ip i.blocks] ∧
      (evalStep st i).recommendCache = generateCacheKey i.ip i.blocks :: st.recommendCache ∧
      generateCacheKey i.ip i.blocks ∉ st.recommendCache) := by
  obtain ⟨ip, blocks, outcome, now⟩ := i
  unfold evalStep
  dsimp only
  by_cases hb : blocks = []
  · rw [if_pos hb]
    exact Or.inl ⟨rfl, rfl⟩
  · rw [if_neg hb]
    by_cases hk : generateCacheKey ip blocks ∈ st.recommendCache
    · rw [if_pos hk]
      exact Or.inl ⟨rfl, rfl⟩
    · rw [if_neg hk]
      cases outcome <;> exact Or.inr ⟨rfl, rfl, hk⟩

/-- Function `EvaluateAndAct` never removes a key from `RecommendCache`. -/
theorem evalStep_cache_mono (st : EvalState) (i : EvalInput) (k : String)
    (hk : k ∈ st.recommendCache) : k ∈ (evalStep st i).recommendCache := by
  rcases evalStep_shape st i with ⟨_, hc⟩ | ⟨_, hc, _⟩
  · rw [hc]; exact hk
  · rw [hc]; exact List.mem_cons_of_mem _ hk

/-- While a key is in `RecommendCache`, one step initiates no submission
for it. -/
theorem evalStep_count_of_mem (st : EvalState) (i : EvalInput) (k : String)
    (hk : k ∈ st.recommendCache) :
    (evalStep st i).submissions.count k = st.submissions.count k := by
  rcases evalStep_shape st i with ⟨hs, _⟩ | ⟨hs, _, hnk⟩
  · rw [hs]
  · rw [hs, List.count_append]
    have hne : k ≠ generateCacheKey i.ip i.blocks := fun h => hnk (h ▸ hk)
    simp [hne]

/-- After a step with a non-empty blocking-decision list, the step's
dedup key is in `RecommendCache`. -/
theorem evalStep_key_cached (st : EvalState) (i : EvalInput) (hb : i.blocks ≠ []) :
    generateCacheKey i.ip i.blocks ∈ (evalStep st i).recommendCache := by
  obtain ⟨ip, blocks, outcome, now⟩ := i
  unfold evalStep
  dsimp only at hb ⊢
  rw [if_neg hb]
  by_cases hk : generateCacheKey ip blocks ∈ st.recommendCache
  · rw [if_pos hk]; exact hk
  · rw [if_neg hk]
    cases outcome <;> exact List.mem_cons_self _ _

/-- A step whose dedup key is already cached is a complete no-op. -/
theorem evalStep_of_cached (st : EvalState) (i : EvalInput)
    (hk : generateCacheKey i.ip i.blocks ∈ st.recommendCache) : evalStep st i = st := by
  obtain ⟨ip, blocks, outcome, now⟩ := i
  unfold evalStep
  dsimp only at hk ⊢
  by_cases hb : blocks = []
  · rw [if_pos hb]
  · rw [if_neg hb, if_pos hk]

/-- Submission count for a cached key is stable along any trace. -/
theorem evalTrace_count_of_mem (k : String) :
    ∀ (inputs : List EvalInput) (st : EvalState), k ∈ st.recommendCache →
      (evalTrace st inputs).submissions.count k = st.submissions.count k := by
  intro inputs
  induction inputs with
  | nil => intro st _; rfl
  | cons i is ih =>
      intro st hk
      show (evalTrace (evalStep st i) is).submissions.count k = _
      rw [ih (evalStep st i) (evalStep_cache_mono st i k hk)]
      exact evalStep_count_of_mem st i k hk

/-- Along any trace, at most one submission is initiated for a key that
starts uncached, and none for a key that starts cached. -/
theorem evalTrace_count_le (k : String) :
    ∀ (inputs : List EvalInput) (st : EvalState),
      (evalTrace st inputs).submissions.count k ≤
        st.submissions.count k + (if k ∈ st.recommendCache then 0 else 1) := by
  intro inputs
  induction inputs with
  | nil =>
      intro st
      by_cases hk : k ∈ st.recommendCache
      · rw [if_pos hk]
        exact Nat.le_add_right _ 0
      · rw [if_neg hk]
        exact Nat.le_succ _
  | cons i is ih =>
      intro st
      show (evalTrace (evalStep st i) is).submissions.count k ≤ _
      by_cases hk : k ∈ st.recommendCache
      · rw [if_pos hk, evalTrace_count_of_mem k is (evalStep st i)
            (evalStep_cache_mono st i k hk),
          evalStep_count_of_mem st i k hk]
        exact Nat.le_add_right _ 0
      · rw [if_neg hk]
        have h2 := ih (evalStep st i)
        rcases evalStep_shape st i with ⟨hs, hc⟩ | ⟨hs, hc, hnk⟩
        · rw [hs, hc, if_neg hk] at h2
          exact h2
        · by_cases hkey : k = generateCacheKey i.ip i.blocks
          · have hkc : k ∈ (evalStep st i).recommendCache := by
              rw [hc, hkey]
              exact List.mem_cons_self _ _
            rw [evalTrace_count_of_mem k is _ hkc, hs, List.count_append, hkey]
            simp
          · have hcount : (evalStep st i).submissions.count k = st.submissions.count k := by
              rw [hs, List.count_append]
              simp [hkey]
            have hmem : k ∉ (evalStep st i).recommendCache := by
              rw [hc]
              intro hmem
              rcases List.mem_cons.mp hmem with h | h
              · exact hkey h
              · exact hk h
            rw [hcount, if_neg hmem] at h2
            exact h2

/-- C3: for every dedup key, while the key remains in the recommendation
cache no `/recommend` submission is initiated for it; along any sequence
of evaluations (which never remove keys) the number of submissions for a
key grows by at most one, and only when the key starts out uncached; and
a second evaluation of the same `(ip, decisions)` pair is a no-op. -/
theorem evaluateAndAct_dedup (k : String) :
    (∀ (st : EvalState) (inputs : List EvalInput), k ∈ st.recommendCache →
      (evalTrace st inputs).submissions.count k = st.submissions.count k) ∧
    (∀ (st : EvalState) (inputs : List EvalInput),
      (evalTrace st inputs).submissions.count k ≤
        st.submissions.count k + (if k ∈ st.recommendCache then 0 else 1)) ∧
    (∀ (st : EvalState) (ip : String) (blocks : List Decision)
        (o₁ o₂ : SubmitOutcome) (t₁ t₂ : ℚ), blocks ≠ [] →
      evalStep (evalStep st ⟨ip, blocks, o₁, t₁⟩) ⟨ip, blocks, o₂, t₂⟩ =
        evalStep st ⟨ip, blocks, o₁, t₁⟩) := by
  refine ⟨?_, ?_, ?_⟩
  · intro st inputs hk
    exact evalTrace_count_of_mem k inputs st hk
  · intro st inputs
    exact evalTrace_count_le k inputs st
  · intro st ip blocks o₁ o₂ t₁ t₂ hb
    exact evalStep_of_cached _ _ (evalStep_key_cached st ⟨ip, blocks, o₁, t₁⟩ hb)

/-- Witness for `evaluateAndAct_dedup`: with the key already cached the
trace adds no submission for it, and a repeated concrete evaluation is
suppressed. -/
theorem evaluateAndAct_dedup_witness :
    (evalTrace ⟨["k0"], [], []⟩
        [⟨"9.9.9.9", [⟨true, "Score 60 >= threshold 40", "BL1"⟩], .accepted, 0⟩]
      ).submissions.count ("k0") = (([] : List String)).count ("k0") ∧
    evalStep
        (evalStep ⟨[], [], []⟩
          ⟨"9.9.9.9", [⟨true, "Score 60 >= threshold 40", "BL1"⟩], .accepted, 0⟩)
        ⟨"9.9.9.9", [⟨true, "Score 60 >= threshold 40", "BL1"⟩], .accepted, 1⟩ =
      evalStep ⟨[], [], []⟩
        ⟨"9.9.9.9", [⟨true, "Score 60 >= threshold 40", "BL1"⟩], .accepted, 0⟩ := by
  constructor
  · exact (evaluateAndAct_dedup ("k0")).1 ⟨["k0"], [], []⟩ _ (by simp)
  · exact (evaluateAndAct_dedup ("k0")).2.2 ⟨[], [], []⟩ "9.9.9.9"
      [⟨true, "Score 60 >= threshold 40", "BL1"⟩] .accepted .accepted 0 1 (by simp)

/-- C10: in `EvaluateAndAct` the dedup key is inserted into
`RecommendCache` before `recommend` is called, and the insertion is not
rolled back when the submission fails with a non-rate-limit error: after
such a failure the key is cached, exactly that one submission was
initiated, nothing was enqueued for retry, and any later evaluation of
the same `(ip, decisions)` pair is suppressed while the key stays
cached. -/
theorem evaluateAndAct_no_rollback (st : EvalState) (ip : String)
    (blocks : List Decision) (msg : String) (t : ℚ)
    (hb : blocks ≠ [])
    (hk : generateCacheKey ip blocks ∉ st.recommendCache) :
    generateCacheKey ip blocks ∈
      (evalStep st ⟨ip, blocks, .failed msg, t⟩).recommendCache ∧
    (evalStep st ⟨ip, blocks, .failed msg, t⟩).submissions =
      st.submissions ++ [generateCacheKey ip blocks] ∧
    (evalStep st ⟨ip, blocks, .failed msg, t⟩).retryQueue = st.retryQueue ∧
    (∀ (o : SubmitOutcome) (t' : ℚ),
      evalStep (evalStep st ⟨ip, blocks, .failed msg, t⟩) ⟨ip, blocks, o, t'⟩ =
        evalStep st ⟨ip, blocks, .failed msg, t⟩) := by
  have hcompute : evalStep st ⟨ip, blocks, .failed msg, t⟩ =
      { recommendCache := generateCacheKey ip blocks :: st.recommendCache,
        submissions := st.submissions ++ [generateCacheKey ip blocks],
        retryQueue := st.retryQueue } := by
    unfold evalStep
    dsimp only
    rw [if_neg hb, if_neg hk]
  refine ⟨?_, ?_, ?_, ?_⟩
  · rw [hcompute]
    exact List.mem_cons_self _ _
  · rw [hcompute]
  · rw [hcompute]
  · intro o t'
    exact evalStep_of_cached _ _ (evalStep_key_cached st ⟨ip, blocks, .failed msg, t⟩ hb)

/-- Witness for `evaluateAndAct_no_rollback` at a concrete failed
submission from the empty state. -/
theorem evaluateAndAct_no_rollback_witness :
    (evalStep ⟨[], [], []⟩
        ⟨"9.9.9.9", [⟨true, "Score 60 >= threshold 40", "BL1"⟩], .failed ("boom"), 0⟩
      ).submissions =
      [] ++ [generateCacheKey ("9.9.9.9") [⟨true, "Score 60 >= threshold 40", "BL1"⟩]] ∧
    (evalStep ⟨[], [], []⟩
        ⟨"9.9.9.9", [⟨true, "Score 60 >= threshold 40", "BL1"⟩], .failed ("boom"), 0⟩
      ).retryQueue = [] := by
  have h := evaluateAndAct_no_rollback ⟨[], [], []⟩ "9.9.9.9"
    [⟨true, "Score 60 >= threshold 40", "BL1"⟩] ("boom") 0 (by simp) (by simp)
  exact ⟨h.2.1, h.2.2.1⟩

/-- Equal code points give equal characters. -/
theorem charEq_of_toNat {a b : Char} (h : a.toNat = b.toNat) : a = b :=
  Char.ext (UInt32.ext h)

/-- The strict byte comparison is asymmetric. -/
theorem charsLt_asymm : ∀ a b : List Char, charsLt a b = true → charsLt b a = false := by
  intro a
  induction a with
  | nil =>
      intro b _
      cases b with
      | nil => rfl
      | cons y ys => rfl
  | cons x xs ih =>
      intro b hab
      cases b with
      | nil => exact absurd hab (by simp [charsLt])
      | cons y ys =>
          unfold charsLt at hab ⊢
          by_cases hxy : x.toNat < y.toNat
          · rw [if_neg (by omega), if_pos hxy]
          · rw [if_neg hxy] at hab
            by_cases hyx : y.toNat < x.toNat
            · rw [if_pos hyx] at hab
              exact absurd hab (by simp)
            · rw [if_neg hyx] at hab
              rw [if_neg hyx, if_neg hxy]
              exact ih ys hab

/-- Relation `¬ <` is transitive for the byte comparison. -/
theorem charsLt_false_trans :
    ∀ a b c : List Char, charsLt b a = false → charsLt c b = false →
      charsLt c a = false := by
  intro a
  induction a with
  | nil =>
      intro b c _ _
      cases c with
      | nil => rfl
      | cons z zs => rfl
  | cons x xs ih =>
      intro b c hba hcb
      cases b with
      | nil => exact absurd hba (by simp [charsLt])
      | cons y ys =>
          cases c with
          | nil => exact absurd hcb (by simp [charsLt])
          | cons z zs =>
              unfold charsLt at hba hcb ⊢
              by_cases hyx : y.toNat < x.toNat
              · rw [if_pos hyx] at hba
                exact absurd hba (by simp)
              · rw [if_neg hyx] at hba
                by_cases hzy : z.toNat < y.toNat
                · rw [if_pos hzy] at hcb
                  exact absurd hcb (by simp)
                · rw [if_neg hzy] at hcb
                  rw [if_neg (by omega)]
                  by_cases hxy : x.toNat < y.toNat
                  · rw [if_pos (by omega)]
                  · rw [if_neg hxy] at hba
                    by_cases hyz : y.toNat < z.toNat
                    · rw [if_pos (by omega)]
                    · rw [if_neg hyz] at hcb
                      rw [if_neg (by omega)]
                      exact ih ys zs hba hcb

/-- Byte lists that compare `¬ <` in both directions are equal. -/
theorem charsLt_false_antisymm :
    ∀ a b : List Char, charsLt a b = false → charsLt b a = false → a = b := by
  intro a
  induction a with
  | nil =>
      intro b hab _
      cases b with
      | nil => rfl
      | cons y ys => exact absurd hab (by simp [charsLt])
  | cons x xs ih =>
      intro b hab hba
      cases b with
      | nil => exact absurd hba (by simp [charsLt])
      | cons y ys =>
          unfold charsLt at hab hba
          by_cases hxy : x.toNat < y.toNat
          · rw [if_pos hxy] at hab
            exact absurd hab (by simp)
          · rw [if_neg hxy] at hab
            by_cases hyx : y.toNat < x.toNat
            · rw [if_pos hyx] at hba
              exact absurd hba (by simp)
            · rw [if_neg hyx] at hab
              rw [if_neg hxy, if_neg (by omega)] at hba
              rw [charEq_of_toNat (by omega : x.toNat = y.toNat), ih ys hab hba]

/-- Comparator-key equality from two-sided `decisionLe`. -/
theorem decisionSortKey_eq_of_le_le {a b : Decision}
    (hab : decisionLe a b) (hba : decisionLe b a) :
    decisionSortKey a = decisionSortKey b := by
  have h := charsLt_false_antisymm (decisionSortKey a).data (decisionSortKey b).data hba hab
  cases ha : decisionSortKey a with
  | mk da =>
      cases hb : decisionSortKey b with
      | mk db =>
          rw [ha, hb] at h
          simp only at h
          rw [h]

/-- Two sorted lists (by the dedup comparator) that are permutations of
each other and have pairwise-distinct comparator keys are equal. -/
theorem eq_of_perm_of_sorted_of_nodup_keys :
    ∀ {l₁ l₂ : List Decision}, l₁.Perm l₂ →
      l₁.Sorted decisionLe → l₂.Sorted decisionLe →
      (l₁.map decisionSortKey).Nodup → l₁ = l₂ := by
  intro l₁
  induction l₁ with
  | nil =>
      intro l₂ hperm _ _ _
      exact hperm.symm.eq_nil.symm ▸ rfl
  | cons a t₁ ih =>
      intro l₂ hperm hs₁ hs₂ hnd
      cases l₂ with
      | nil => exact absurd hperm.eq_nil (by simp)
      | cons b t₂ =>
          have hab : a = b := by
            by_contra hne
            have ha2 : a ∈ b :: t₂ := hperm.subset (List.mem_cons_self a t₁)
            have hb1 : b ∈ a :: t₁ := hperm.symm.subset (List.mem_cons_self b t₂)
            have hat2 : a ∈ t₂ := by
              rcases List.mem_cons.mp ha2 with h | h
              · exact absurd h hne
              · exact h
            have hbt1 : b ∈ t₁ := by
              rcases List.mem_cons.mp hb1 with h | h
              · exact absurd h.symm hne
              · exact h
            have h₁ : decisionLe a b := (List.sorted_cons.mp hs₁).1 b hbt1
            have h₂ : decisionLe b a := (List.sorted_cons.mp hs₂).1 a hat2
            have hkey : decisionSortKey a = decisionSortKey b :=
              decisionSortKey_eq_of_le_le h₁ h₂
            have hnotin : decisionSortKey a ∉ t₁.map decisionSortKey := by
              rw [List.map_cons, List.nodup_cons] at hnd
              exact hnd.1
            exact hnotin (hkey ▸ List.mem_map_of_mem decisionSortKey hbt1)
          subst hab
          have hnd' : (t₁.map decisionSortKey).Nodup := by
            rw [List.map_cons, List.nodup_cons] at hnd
            exact hnd.2
          rw [ih hperm.cons_inv (List.sorted_cons.mp hs₁).2
            (List.sorted_cons.mp hs₂).2 hnd']

set_option maxRecDepth 40000 in
/-- C8 counterexample: the claim asserts key invariance under *any*
permutation of the decisions.  The comparator only sees the
concatenation `Reason + Blocklist`, so the two distinct decisions
`("ab","c")` and `("a","bc")` tie ("abc" = "abc"); the sort leaves a tie
in input order, the two orders serialise to different JSON, and the keys
differ. -/
theorem generateCacheKey_not_perm_invariant :
    [Decision.mk true ("ab") ("c"), Decision.mk true ("a") ("bc")].Perm
      [Decision.mk true ("a") ("bc"), Decision.mk true ("ab") ("c")] ∧
    generateCacheKey ("1.2.3.4") [Decision.mk true ("ab") ("c"), Decision.mk true ("a") ("bc")] ≠
      generateCacheKey ("1.2.3.4") [Decision.mk true ("a") ("bc"), Decision.mk true ("ab") ("c")] := by
  constructor
  · exact List.Perm.swap _ _ _
  · decide

/-- C8 (amended): the deduplication key is invariant under any
permutation of the decisions list *provided* no two decisions share the
same `Reason + Blocklist` comparator key (in particular whenever the
`(reason, blocklist)` pairs are distinct and concatenation-unambiguous);
with colliding comparator keys the key may depend on input order. -/
theorem generateCacheKey_perm_invariant (ip : String) (ds ds' : List Decision)
    (hperm : ds.Perm ds') (hnd : (ds.map decisionSortKey).Nodup) :
    generateCacheKey ip ds = generateCacheKey ip ds' := by
  haveI htot : IsTotal Decision decisionLe := by
    constructor
    intro a b
    unfold decisionLe decisionLtB
    cases h : charsLt (decisionSortKey b).data (decisionSortKey a).data
    · exact Or.inl rfl
    · exact Or.inr (charsLt_asymm _ _ h)
  haveI htrans : IsTrans Decision decisionLe := by
    constructor
    intro a b c hab hbc
    exact charsLt_false_trans _ _ _ hab hbc
  have hsortperm : (sortDecisions ds).Perm (sortDecisions ds') :=
    (List.perm_insertionSort decisionLe ds).trans
      (hperm.trans (List.perm_insertionSort decisionLe ds').symm)
  have hnd₁ : ((sortDecisions ds).map decisionSortKey).Nodup :=
    (((List.perm_insertionSort decisionLe ds).map decisionSortKey).symm).nodup hnd
  have heq : sortDecisions ds = sortDecisions ds' :=
    eq_of_perm_of_sorted_of_nodup_keys hsortperm
      (List.sorted_insertionSort decisionLe ds)
      (List.sorted_insertionSort decisionLe ds')
      hnd₁
  unfold generateCacheKey
  rw [heq]

/-- Witness for `generateCacheKey_perm_invariant`: two decisions with
distinct comparator keys, in both orders. -/
theorem generateCacheKey_perm_invariant_witness :
    generateCacheKey ("9.9.9.9")
        [Decision.mk true ("r1") ("BL1"), Decision.mk true ("r2") ("BL2")] =
      generateCacheKey ("9.9.9.9")
        [Decision.mk true ("r2") ("BL2"), Decision.mk true ("r1") ("BL1")] :=
  generateCacheKey_perm_invariant ("9.9.9.9") _ _ (by decide) (by decide)

/-- The result pair of the DB fallback is either a score with no error
or a `nil` pointer with an error. -/
theorem lookupDB_pair_shape (st : FacadeState) (now : ℚ) (ip : String) :
    (∃ v, (lookupDB st now ip).1 = (some v, none)) ∨
    (∃ e, (lookupDB st now ip).1 = (none, some e)) := by
  unfold lookupDB
  cases st.store ip with
  | err e => exact Or.inr ⟨e, rfl⟩
  | noRows => exact Or.inl ⟨0, rfl⟩
  | found r => exact Or.inl ⟨_, rfl⟩

/-- The result pair of `Lookup` is either a score with no error or a
`nil` pointer with an error: in particular, on every error path the
returned `*int32` is `nil`. -/
theorem lookup_pair_shape (st : FacadeState) (now : ℚ) (ip : String) :
    (∃ v, (lookup st now ip).1 = (some v, none)) ∨
    (∃ e, (lookup st now ip).1 = (none, some e)) := by
  unfold lookup
  by_cases hini : (!st.cacheInit) = true
  · rw [if_pos hini]
    exact Or.inr ⟨_, rfl⟩
  · rw [if_neg hini]
    cases hget : cacheGet st.cache ip with
    | some entry =>
        dsimp only
        by_cases hf : now - entry.cachedAt < cacheTTL
        · rw [if_pos hf]
          exact Or.inl ⟨_, rfl⟩
        · rw [if_neg hf]
          exact lookupDB_pair_shape st now ip
    | none => exact lookupDB_pair_shape st now ip

/-- C1: the claim states that when the reputation store lookup returns
an error, `ShouldBlock` returns a single non-blocking `"N/A"` decision
together with the score and never crashes.  The code violates this: on
the error path `sqlite.Lookup` returns a `nil` score pointer, and
`ShouldBlock` builds the error decision but then evaluates `*score` in
its `return` statement — a nil-pointer dereference, i.e. a panic
(modelled as `none`), so no decision list is ever returned. -/
theorem shouldBlock_panics_on_lookup_error (st : FacadeState) (now : ℚ) (ip : String)
    (privRes : Except String Bool) (bls : List Blocklist) (e : String)
    (herr : (lookup st now ip).1.2 = some e) :
    shouldBlock (lookup st now ip).1 privRes bls = none := by
  rcases lookup_pair_shape st now ip with ⟨v, hv⟩ | ⟨e', he⟩
  · rw [hv] at herr
    exact absurd herr (by simp)
  · rw [he]
    rfl

/-- Witness for `shouldBlock_panics_on_lookup_error`: before `InitCache`
runs, `Lookup` fails with "score cache not initialized" and
`ShouldBlock` panics. -/
theorem shouldBlock_panics_on_lookup_error_witness :
    (lookup ⟨false, [], fun _ => .noRows⟩ 0 "1.2.3.4").1.2 =
      some ("score cache not initialized") ∧
    shouldBlock (lookup ⟨false, [], fun _ => .noRows⟩ 0 "1.2.3.4").1 (.ok true) [] =
      none :=
  ⟨rfl, shouldBlock_panics_on_lookup_error ⟨false, [], fun _ => .noRows⟩ 0 "1.2.3.4"
    (.ok true) [] "score cache not initialized" rfl⟩

/-- Function `applyDecay` computes exactly
`round(raw * max(MIN_MULT, 0.5^(age_hours / HALF_LIFE)))`; the
`raw == 0` early return agrees with the formula since the product is
then `0`. -/
theorem applyDecay_eq (s : ℤ) (h : ℝ) :
    applyDecay s h =
      goRound ((s : ℝ) * max minDecayMultiplier
        ((1 / 2 : ℝ) ^ (h / decayHalfLifeHours))) := by
  unfold applyDecay calculateDecayMultiplier
  by_cases hs : s = 0
  · rw [if_pos hs, hs, Int.cast_zero, zero_mul]
    unfold goRound
    rw [if_pos le_rfl, zero_add]
    symm
    rw [Int.floor_eq_zero_iff]
    constructor <;> norm_num
  · rw [if_neg hs]
    simp only
    congr 1
    rcases lt_or_le ((1 / 2 : ℝ) ^ (h / decayHalfLifeHours)) minDecayMultiplier with hd | hd
    · rw [if_pos hd, max_eq_left hd.le]
    · rw [if_neg (not_lt.mpr hd), max_eq_right hd]

/-- C4: under an initialized cache and a score cache coherent with the
store for this IP, `Lookup` returns `0` when the IP has no record, and
otherwise returns
`round(raw * max(0.3, 0.5^(age_hours / 72)))` computed from the stored
record's raw score and `updated_at`; a zero raw score yields `0`
regardless of age. -/
theorem lookup_returns_decayed_score (st : FacadeState) (now : ℚ) (ip : String)
    (hinit : st.cacheInit = true)
    (hcoh : ∀ en, cacheGet st.cache ip = some en → now - en.cachedAt < cacheTTL →
      st.store ip = .found ⟨ip, en.score, en.updatedAt⟩) :
    (st.store ip = .noRows → (lookup st now ip).1 = (some 0, none)) ∧
    (∀ r, st.store ip = .found r →
      (lookup st now ip).1 =
        (some (goRound ((r.score : ℝ) * max minDecayMultiplier
          ((1 / 2 : ℝ) ^ (((now : ℝ) - (r.updatedAt : ℝ)) / decayHalfLifeHours)))),
         none) ∧
      (r.score = 0 → (lookup st now ip).1 = (some 0, none))) := by
  have hni : ¬ ((!st.cacheInit) = true) := by rw [hinit]; simp
  constructor
  · intro hno
    unfold lookup
    rw [if_neg hni]
    cases hget : cacheGet st.cache ip with
    | some en =>
        dsimp only
        by_cases hf : now - en.cachedAt < cacheTTL
        · exact absurd (hcoh en hget hf) (by rw [hno]; simp)
        · rw [if_neg hf]
          unfold lookupDB
          rw [hno]
    | none =>
        unfold lookupDB
        rw [hno]
  · intro r hr
    have hval : (lookup st now ip).1 =
        (some (applyDecay r.score ((now : ℝ) - (r.updatedAt : ℝ))), none) := by
      unfold lookup
      rw [if_neg hni]
      cases hget : cacheGet st.cache ip with
      | some en =>
          dsimp only
          by_cases hf : now - en.cachedAt < cacheTTL
          · rw [if_pos hf]
            have hfound := hcoh en hget hf
            rw [hr] at hfound
            have hrec : r = ⟨ip, en.score, en.updatedAt⟩ := StoreReply.found.inj hfound
            rw [hrec]
          · rw [if_neg hf]
            unfold lookupDB
            rw [hr]
      | none =>
          unfold lookupDB
          rw [hr]
    constructor
    · rw [hval, applyDecay_eq]
    · intro h0
      rw [hval, h0]
      unfold applyDecay
      rw [if_pos rfl]

/-- Witness for `lookup_returns_decayed_score`: a store holding a zero
raw score for the IP, empty cache; the lookup returns `0`. -/
theorem lookup_returns_decayed_score_witness :
    (lookup ⟨true, [], fun x => if x = "1.2.3.4" then
        .found ⟨"1.2.3.4", 0, 0⟩ else .noRows⟩ 0 "1.2.3.4").1 = (some 0, none) := by
  have h := lookup_returns_decayed_score
    ⟨true, [], fun x => if x = "1.2.3.4" then .found ⟨"1.2.3.4", 0, 0⟩ else .noRows⟩
    0 "1.2.3.4" rfl
    (by intro en hen; simp [cacheGet] at hen)
  exact (h.2 ⟨"1.2.3.4", 0, 0⟩ (by simp)).2 rfl

/-- Reading the just-added cache entry. -/
theorem cacheGet_cacheAdd_self (c : List (String × CachedScore)) (ip : String)
    (e : CachedScore) : cacheGet (cacheAdd c ip e) ip = some e := by
  unfold cacheGet cacheAdd
  rw [List.find?_cons_of_pos _ (by simp)]
  rfl

/-- After `ScoreCache.Remove` the entry is gone. -/
theorem cacheGet_cacheRemove_self (c : List (String × CachedScore)) (ip : String) :
    cacheGet (cacheRemove c ip) ip = none := by
  unfold cacheGet cacheRemove
  have h : (c.filter fun p => p.1 ≠ ip).find? (fun p => p.1 = ip) = none := by
    rw [List.find?_eq_none]
    intro x hx
    have hmem := (List.mem_filter.mp hx).2
    simp only [ne_eq, decide_not, Bool.not_eq_true', decide_eq_false_iff_not] at hmem
    simp [hmem]
  rw [h]
  rfl

/-- One `Lookup` step from a state whose store holds `(sc, t)` for `ip`
and whose cache, if it holds `ip`, holds the same raw score and
`updated_at`: the step returns the decayed new score and preserves the
coherence. -/
theorem lookup_step_coherent (f : FacadeState) (u : ℚ) (ip : String) (sc : ℤ) (t : ℚ)
    (hinit : f.cacheInit = true)
    (hstore : f.store ip = .found ⟨ip, sc, t⟩)
    (hcache : ∀ en, cacheGet f.cache ip = some en → en.score = sc ∧ en.updatedAt = t) :
    (lookup f u ip).1 = (some (applyDecay sc ((u : ℝ) - (t : ℝ))), none) ∧
    (lookup f u ip).2.cacheInit = true ∧
    (lookup f u ip).2.store ip = .found ⟨ip, sc, t⟩ ∧
    (∀ en, cacheGet (lookup f u ip).2.cache ip = some en →
      en.score = sc ∧ en.updatedAt = t) := by
  have hni : ¬ ((!f.cacheInit) = true) := by rw [hinit]; simp
  unfold lookup
  rw [if_neg hni]
  cases hget : cacheGet f.cache ip with
  | some en =>
      dsimp only
      by_cases hf : u - en.cachedAt < cacheTTL
      · rw [if_pos hf]
        obtain ⟨hsc, ht⟩ := hcache en hget
        rw [hsc, ht]
        exact ⟨rfl, hinit, hstore, hcache⟩
      · rw [if_neg hf]
        unfold lookupDB
        rw [hstore]
        refine ⟨rfl, hinit, hstore, ?_⟩
        intro en' hen'
        rw [cacheGet_cacheAdd_self] at hen'
        cases hen'
        exact ⟨rfl, rfl⟩
  | none =>
      unfold lookupDB
      rw [hstore]
      refine ⟨rfl, hinit, hstore, ?_⟩
      intro en' hen'
      rw [cacheGet_cacheAdd_self] at hen'
      cases hen'
      exact ⟨rfl, rfl⟩

/-- Every lookup in a trace from a coherent state sees the stored raw
score, decayed. -/
theorem lookupTrace_coherent (ip : String) (sc : ℤ) (t : ℚ) :
    ∀ (ts : List ℚ) (f : FacadeState), f.cacheInit = true →
      f.store ip = .found ⟨ip, sc, t⟩ →
      (∀ en, cacheGet f.cache ip = some en → en.score = sc ∧ en.updatedAt = t) →
      lookupTrace f ip ts =
        ts.map (fun u => (some (applyDecay sc ((u : ℝ) - (t : ℝ))), none)) := by
  intro ts
  induction ts with
  | nil => intro f _ _ _; rfl
  | cons u us ih =>
      intro f hinit hstore hcache
      obtain ⟨hval, hinit', hstore', hcache'⟩ :=
        lookup_step_coherent f u ip sc t hinit hstore hcache
      show (lookup f u ip).1 :: lookupTrace (lookup f u ip).2 ip us = _
      rw [hval, ih (lookup f u ip).2 hinit' hstore' hcache']
      rfl

/-- C7: after the `score-update` arm of `ProcessUpdate` runs for an IP
(store upsert of the new raw score, score-cache invalidation, dedup
purge), every subsequent `Lookup` of that IP — whether served from the
re-populated cache within its TTL or from the store — returns the decay
of the new raw score, never the previously cached one. -/
theorem scoreUpdate_lookups_see_new_score (st : SensorState) (ip : String)
    (newScore : ℤ) (t : ℚ) (ts : List ℚ)
    (hinit : st.facade.cacheInit = true) :
    lookupTrace (processScoreUpdate st ip newScore t).facade ip ts =
      ts.map (fun u => (some (applyDecay newScore ((u : ℝ) - (t : ℝ))), none)) := by
  apply lookupTrace_coherent
  · exact hinit
  · show (if ip = ip then StoreReply.found ⟨ip, newScore, t⟩
      else st.facade.store ip) = _
    rw [if_pos rfl]
  · intro en hen
    rw [show (processScoreUpdate st ip newScore t).facade.cache =
        cacheRemove st.facade.cache ip from rfl, cacheGet_cacheRemove_self] at hen
    exact absurd hen (by simp)

/-- Witness for `scoreUpdate_lookups_see_new_score`: one pushed update
followed by one lookup at the update time. -/
theorem scoreUpdate_lookups_see_new_score_witness :
    lookupTrace (processScoreUpdate ⟨⟨true, [], fun _ => .noRows⟩, []⟩
        "2.2.2.2" 7 0).facade ("2.2.2.2") [0] =
      [(some (applyDecay 7 0), none)] := by
  have h := scoreUpdate_lookups_see_new_score ⟨⟨true, [], fun _ => .noRows⟩, []⟩
    "2.2.2.2" 7 0 [0] rfl
  simpa using h

end TrafficSensor
